import Mathlib

/-!
Verification of the dbfailover package (advbet/dbfailover): a shallow
embedding of its role classifier (`mergeStatus`), probe dispatcher
(`checkDBStatus`), fleet aggregator (`makeSelection`), construction
(`NewWithConfig`), accessors (`Master`/`Slave`) and the error driver,
together with proofs about the spec's claims on them.

Go `time.Duration` is an `int64` nanosecond count; durations in this
development stay far below `2^63`, so it is embedded as `Int`.
Go `*sql.DB` handles are compared only by reference identity, so they are
embedded as natural-number identifiers; a possibly-nil pointer is an
`Option Handle` (or the dedicated `DBPtr` type for accessor results).
-/

namespace Dbfailover

/-- Reference identity of an externally-owned `*sql.DB` handle. -/
abbrev Handle := Nat

/-- Role verdict, from dbstatus.go: `roleOffline`, `roleSlave`, `roleMaster`. -/
inductive Role
| offline
| slave
| master
deriving DecidableEq

/-- Per-server status, from dbstatus.go `dbStatus`. -/
structure DbStatus where
  role : Role
  latency : Int
deriving DecidableEq

/-- Replication-role probe report, from dbstatus.go `readOnlyStatus`. -/
structure ReadOnlyStatus where
  online : Bool
  readOnly : Bool
  latency : Int
deriving DecidableEq

/-- Replication-health probe report, from dbstatus.go `slaveStatus`.
The Go fields `runningIO`/`runningSQL` are named `ioRunning`/`sqlRunning` here. -/
structure SlaveStatus where
  online : Bool
  configured : Bool
  ioRunning : Bool
  sqlRunning : Bool
  delay : Int
  latency : Int
deriving DecidableEq

/-- Cluster-membership probe report, from dbstatus.go `wsrepStatus`. -/
structure WsrepStatus where
  online : Bool
  ready : Bool
  latency : Int
deriving DecidableEq

/-- Go zero value of `slaveStatus` (all fields false/zero): the report left in
place when the health probe is skipped. -/
def zeroSlaveStatus : SlaveStatus :=
  { online := false, configured := false, ioRunning := false, sqlRunning := false
    delay := 0, latency := 0 }

/-- Go zero value of `wsrepStatus`: the report left in place when the cluster
probe is skipped. -/
def zeroWsrepStatus : WsrepStatus :=
  { online := false, ready := false, latency := 0 }

/-- dbstatus.go `maxTime`: maximum of a list of durations, starting from the
zero value of `time.Duration` (so negative durations are clamped to 0). -/
def maxTime (ts : List Int) : Int :=
  ts.foldl (fun m t => if t > m then t else m) 0

/-- dbstatus.go `mergeStatus`: the role classifier. The `switch` cases are the
decision table evaluated in order; the Go `role` variable is initialised to
`roleOffline`, hence the final (unreachable) `else`. After the table come the
replication-lag downgrade and the Galera-node override. The resulting latency
is `maxTime(rs.latency, ss.latency)`. -/
def mergeStatus (ss : SlaveStatus) (rs : ReadOnlyStatus) (ws : WsrepStatus)
    (maxReplicationDelay : Int) : DbStatus :=
  let role :=
    if rs.online = false then Role.offline
    else if rs.readOnly = true ∧ ss.online = false then Role.slave
    else if rs.readOnly = false ∧ ss.online = false then Role.master
    else if rs.readOnly = true ∧ ss.configured = true ∧ ss.ioRunning = true ∧ ss.sqlRunning = true then Role.slave
    else if rs.readOnly = true ∧ ss.configured = true ∧ ss.ioRunning = true ∧ ss.sqlRunning = false then Role.offline
    else if rs.readOnly = true ∧ ss.configured = true ∧ ss.ioRunning = false then Role.offline
    else if rs.readOnly = true ∧ ss.configured = false then Role.offline
    else if rs.readOnly = false ∧ ss.configured = true ∧ ss.ioRunning = true ∧ ss.sqlRunning = true then Role.slave
    else if rs.readOnly = false ∧ ss.configured = true ∧ ss.ioRunning = true ∧ ss.sqlRunning = false then Role.offline
    else if rs.readOnly = false ∧ ss.configured = true ∧ ss.ioRunning = false then Role.master
    else if rs.readOnly = false ∧ ss.configured = false then Role.master
    else Role.offline
  let role := if role = Role.slave ∧ maxReplicationDelay < ss.delay then Role.offline else role
  let role := if ws.online = true ∧ ws.ready = false then Role.offline else role
  { role := role, latency := maxTime [rs.latency, ss.latency] }

/-- The spec's §4.2 decision table, written from the spec's words: eleven rows
evaluated in order, first match wins. The rows are exhaustive, so the final
default branch is unreachable. -/
def specTableRole (rs : ReadOnlyStatus) (ss : SlaveStatus) : Role :=
  if rs.online = false then Role.offline
  else if rs.readOnly = true ∧ ss.online = false then Role.slave
  else if rs.readOnly = false ∧ ss.online = false then Role.master
  else if rs.readOnly = true ∧ ss.configured = true ∧ ss.ioRunning = true ∧ ss.sqlRunning = true then Role.slave
  else if rs.readOnly = true ∧ ss.configured = true ∧ ss.ioRunning = true ∧ ss.sqlRunning = false then Role.offline
  else if rs.readOnly = true ∧ ss.configured = true ∧ ss.ioRunning = false then Role.offline
  else if rs.readOnly = true ∧ ss.configured = false then Role.offline
  else if rs.readOnly = false ∧ ss.configured = true ∧ ss.ioRunning = true ∧ ss.sqlRunning = true then Role.slave
  else if rs.readOnly = false ∧ ss.configured = true ∧ ss.ioRunning = true ∧ ss.sqlRunning = false then Role.offline
  else if rs.readOnly = false ∧ ss.configured = true ∧ ss.ioRunning = false then Role.master
  else if rs.readOnly = false ∧ ss.configured = false then Role.master
  else Role.offline

/-- The spec's §4.2 verdict: the decision table followed by the lag
post-condition ("if verdict is Slave and lagBehindSource exceeds
maxReplicationLag, downgrade to Offline"), written from the spec's words. -/
def specVerdict (rs : ReadOnlyStatus) (ss : SlaveStatus) (maxReplicationLag : Int) : Role :=
  let v := specTableRole rs ss
  if v = Role.slave ∧ maxReplicationLag < ss.delay then Role.offline else v

/-- Configuration, from dbs.go `Config`. -/
structure Config where
  skipSlaveCheck : Bool
  skipGaleraCheck : Bool
  checkInterval : Int
  checkTimeout : Int
  maxReplicationDelay : Int
deriving DecidableEq

/-- One nanosecond-denominated millisecond, as in Go `time.Millisecond`. -/
def millisecond : Int := 1000000

/-- dbs.go `defaultCheckInterval` (1500 ms). -/
def defaultCheckInterval : Int := 1500 * millisecond

/-- dbs.go `defaultCheckTimeout` (1500 ms). -/
def defaultCheckTimeout : Int := 1500 * millisecond

/-- dbs.go `defaultMaxReplicationDelay` (5 minutes). -/
def defaultMaxReplicationDelay : Int := 5 * 60 * 1000 * millisecond

/-- The defaulting performed at the top of dbs.go `NewWithConfig`: each zero
duration field is replaced with its default. -/
def applyDefaults (cfg : Config) : Config :=
  let cfg := if cfg.checkInterval = 0 then { cfg with checkInterval := defaultCheckInterval } else cfg
  let cfg := if cfg.checkTimeout = 0 then { cfg with checkTimeout := defaultCheckTimeout } else cfg
  if cfg.maxReplicationDelay = 0 then { cfg with maxReplicationDelay := defaultMaxReplicationDelay } else cfg

/-- dbstatus.go `checkDBStatus`, embedded over the probe outcomes: `rs`, `ss`
and `ws` are the reports the three network probes would produce for this
server. The role probe always runs; when `SkipSlaveCheck` (resp.
`SkipGaleraCheck`) is set the corresponding goroutine is never started, so the
Go zero value of the report is what reaches `mergeStatus`. -/
def checkDBStatus (cfg : Config) (rs : ReadOnlyStatus) (ss : SlaveStatus) (ws : WsrepStatus) : DbStatus :=
  mergeStatus
    (if cfg.skipSlaveCheck then zeroSlaveStatus else ss)
    rs
    (if cfg.skipGaleraCheck then zeroWsrepStatus else ws)
    cfg.maxReplicationDelay

/-- Published snapshot, from selection.go `selection`. -/
structure Selection where
  master : Option Handle
  slave : Option Handle
  lastMaster : Option Handle
  multipleMasters : Bool
deriving DecidableEq

/-- The loop accumulator of selection.go `makeSelection`: the five local
variables of the Go function. -/
structure SelAcc where
  master : Option Handle
  masterLatency : Int
  slave : Option Handle
  slaveLatency : Int
  multipleMasters : Bool
deriving DecidableEq

/-- One iteration of the `for db, status := range statuses` loop of
selection.go `makeSelection`. -/
def selStep (acc : SelAcc) (e : Handle × DbStatus) : SelAcc :=
  match e.2.role with
  | Role.offline => acc
  | Role.master =>
      let mm := acc.multipleMasters || acc.master.isSome
      if acc.masterLatency = 0 ∨ e.2.latency < acc.masterLatency then
        { acc with multipleMasters := mm, master := some e.1, masterLatency := e.2.latency }
      else
        { acc with multipleMasters := mm }
  | Role.slave =>
      if acc.slaveLatency = 0 ∨ e.2.latency < acc.slaveLatency then
        { acc with slave := some e.1, slaveLatency := e.2.latency }
      else acc

/-- selection.go `makeSelection`. The Go `statuses` argument is a map iterated
in an unspecified order; it is embedded as an association list giving one such
order. After the loop: a missing slave falls back to the master candidate, and
`lastMaster` is replaced by the master candidate when one exists. -/
def makeSelection (statuses : List (Handle × DbStatus)) (lastMaster : Option Handle) : Selection :=
  let acc := statuses.foldl selStep ⟨none, 0, none, 0, false⟩
  let slave := if acc.slave = none then acc.master else acc.slave
  let lastMaster := if acc.master = none then lastMaster else acc.master
  { master := acc.master, slave := slave, lastMaster := lastMaster,
    multipleMasters := acc.multipleMasters }

/-- Number of servers in a status list whose verdict is `r`. -/
def countRole (statuses : List (Handle × DbStatus)) (r : Role) : Nat :=
  statuses.countP (fun e => decide (e.2.role = r))

/-- Construction errors of dbs.go: `ErrNoDatabases` and `ErrMultipleMasters`. -/
inductive ConstructionError
| noDatabases
| multipleMasters
deriving DecidableEq

/-- The state a successful dbs.go `NewWithConfig` returns: the published
selection plus the defaulted configuration (`stop` and the mutex carry no
data). -/
structure DBsState where
  active : Selection
  config : Config
deriving DecidableEq

/-- dbs.go `NewWithConfig`, embedded over the initial probe outcome: `state`
models the per-server statuses that the synchronous `checkBatch` round
produced. An `Except.error` result means no controller is created and the
`go p.run(...)` statement — the only entry into the polling loops — is never
reached. -/
def newWithConfig (dbs : List Handle) (state : List (Handle × DbStatus)) (cfg : Config) :
    Except ConstructionError DBsState :=
  match dbs with
  | [] => Except.error ConstructionError.noDatabases
  | d :: _ =>
      let cfg := applyDefaults cfg
      let active := makeSelection state (some d)
      if active.multipleMasters then Except.error ConstructionError.multipleMasters
      else Except.ok { active := active, config := cfg }

/-- Result of an accessor: a Go `*sql.DB` pointer, which is nil, one of the
caller's real handles, or a handle opened on the error driver with the given
data source name. -/
inductive DBPtr
| null
| real (h : Handle)
| errDriverDB (dataSourceName : String)
deriving DecidableEq

/-- View of an optional handle as a Go pointer. -/
def optPtr : Option Handle → DBPtr
| none => DBPtr.null
| some h => DBPtr.real h

/-- The message of dbs.go `ErrMultipleMasters`. -/
def errMultipleMastersMsg : String := "multiple database master connections found"

/-- Errors observable through a handle. -/
inductive SQLError
| multipleMasters
| other (msg : String)
deriving DecidableEq

/-- error_driver.go `errorDriver.Open`: opening a connection always fails;
with `ErrMultipleMasters` when the data source name is that error's message,
with a fresh error otherwise. -/
def errorDriverOpen (name : String) : Except SQLError Unit :=
  if name = errMultipleMastersMsg then Except.error SQLError.multipleMasters
  else Except.error (SQLError.other name)

/-- error_driver.go `newMultipleMasterErrConn`: a handle opened on the error
driver with `ErrMultipleMasters.Error()` as its data source name. -/
def newMultipleMasterErrConn : DBPtr := DBPtr.errDriverDB errMultipleMastersMsg

/-- A query-shaped call issued through a handle. A real handle's behaviour is
the caller's external connection (modelled as success); a handle backed by the
error driver must first obtain a driver connection via `errorDriverOpen`, so
the call fails with exactly that open error (as exercised by the repository's
`TestNewFaultyTopologyErrDriver`); a nil pointer cannot be called. -/
def execQuery : DBPtr → String → Except SQLError Unit
| DBPtr.null, _ => Except.error (SQLError.other "nil database handle")
| DBPtr.real _, _ => Except.ok ()
| DBPtr.errDriverDB name, _ => errorDriverOpen name >>= fun _ => Except.ok ()

/-- dbs.go `Master()` as a function of the published selection it reads under
the lock. -/
def masterAccessor (active : Selection) : DBPtr :=
  if active.multipleMasters then newMultipleMasterErrConn
  else if active.master.isSome then optPtr active.master
  else optPtr active.lastMaster

/-- dbs.go `Slave()` as a function of the published selection it reads under
the lock. -/
def slaveAccessor (active : Selection) : DBPtr :=
  if active.slave.isSome then optPtr active.slave
  else optPtr active.lastMaster

/-- The mutable state of the dbs.go `run` loop: the statuses map, the loop's
`lastMaster` variable and the currently published selection. -/
structure RunState where
  state : List (Handle × DbStatus)
  lastMaster : Option Handle
  active : Selection
deriving DecidableEq

/-- Go map assignment `state[db] = st` on the association-list embedding. -/
def setStatus : List (Handle × DbStatus) → Handle → DbStatus → List (Handle × DbStatus)
| [], db, st => [(db, st)]
| e :: rest, db, st => if e.1 = db then (db, st) :: rest else e :: setStatus rest db st

/-- One `case u := <-updates` iteration of dbs.go `run`: store the update,
recompute the selection, publish it, and thread its `lastMaster` forward. -/
def stepRun (r : RunState) (db : Handle) (st : DbStatus) : RunState :=
  let state := setStatus r.state db st
  let active := makeSelection state r.lastMaster
  { state := state, lastMaster := active.lastMaster, active := active }

/-- Run-loop states reachable after a successful construction: dbs.go passes
the initial statuses map and `lastMaster := dbs[0]` to `run`, with `p.active`
already published by `NewWithConfig`; every received update then advances the
state by `stepRun`. -/
inductive Reachable : RunState → Prop
| init (d : Handle) (ds : List Handle) (state : List (Handle × DbStatus))
    (cfg : Config) (s : DBsState) :
    newWithConfig (d :: ds) state cfg = Except.ok s →
    Reachable ⟨state, some d, s.active⟩
| update (r : RunState) (db : Handle) (st : DbStatus) :
    Reachable r → Reachable (stepRun r db st)

/-- The spec's §4.3 notion of a correct pick (written from the spec's words):
no candidate is picked exactly when no server has verdict `r`, and a picked
candidate is a server with verdict `r` of minimal latency among all servers
with verdict `r`. -/
def minimalFor (statuses : List (Handle × DbStatus)) (r : Role) : Option Handle → Prop
| none => ∀ e ∈ statuses, ¬ e.2.role = r
| some h => ∃ e ∈ statuses, e.1 = h ∧ e.2.role = r ∧
    ∀ e2 ∈ statuses, e2.2.role = r → e.2.latency ≤ e2.2.latency

instance (statuses : List (Handle × DbStatus)) (r : Role) :
    (o : Option Handle) → Decidable (minimalFor statuses r o)
| none => inferInstanceAs (Decidable (∀ e ∈ statuses, ¬ e.2.role = r))
| some h => inferInstanceAs (Decidable (∃ e ∈ statuses, e.1 = h ∧ e.2.role = r ∧
    ∀ e2 ∈ statuses, e2.2.role = r → e.2.latency ≤ e2.2.latency))

/-- The candidate-picking part of one `makeSelection` loop iteration, as a
fold over the pair of chosen handle and recorded latency: entries with
verdict `r` update the pair exactly as the corresponding `selStep` branch
does, every other entry leaves it unchanged. -/
def pickStep (r : Role) (p : Option Handle × Int) (e : Handle × DbStatus) :
    Option Handle × Int :=
  if e.2.role = r then
    (if p.2 = 0 ∨ e.2.latency < p.2 then (some e.1, e.2.latency) else p)
  else p

/-- Invariant of the picking fold after processing the entries of `P`: either
nothing is chosen and `P` has no entry with verdict `r` (the latency sentinel
still 0), or the chosen handle is an entry of `P` with verdict `r`, a positive
recorded latency, and minimal latency among the verdict-`r` entries of `P`. -/
def pickInv (P : List (Handle × DbStatus)) (r : Role) : Option Handle × Int → Prop
| (none, ml) => ml = 0 ∧ ∀ e ∈ P, ¬ e.2.role = r
| (some h, ml) => 0 < ml ∧ (h, ⟨r, ml⟩) ∈ P ∧ ∀ e ∈ P, e.2.role = r → ml ≤ e.2.latency

/-- A configuration with every field zero, as produced by dbs.go `New`. -/
def cfgZero : Config :=
  { skipSlaveCheck := false, skipGaleraCheck := false
    checkInterval := 0, checkTimeout := 0, maxReplicationDelay := 0 }

/-- A one-master initial probe round used to exercise the theorems below. -/
def stateW : List (Handle × DbStatus) := [(0, ⟨Role.master, 1⟩)]

/-- The controller state that `newWithConfig [0] stateW cfgZero` returns. -/
def dbsW : DBsState := ⟨makeSelection stateW (some 0), applyDefaults cfgZero⟩

/-- The run-loop state right after that construction. -/
def runW : RunState := ⟨stateW, some 0, dbsW.active⟩

/-- A one-master-one-slave status map with positive latencies, used to
exercise the aggregator theorems below. -/
def stW : List (Handle × DbStatus) := [(5, ⟨Role.master, 3⟩), (7, ⟨Role.slave, 2⟩)]

/-- One `selStep` iteration moves the master-candidate pair exactly as
`pickStep Role.master` does. -/
theorem selStep_master_proj (acc : SelAcc) (e : Handle × DbStatus) :
    ((selStep acc e).master, (selStep acc e).masterLatency) =
      pickStep Role.master (acc.master, acc.masterLatency) e := by
  rcases e with ⟨h, r, lat⟩
  cases r <;> simp only [selStep, pickStep] <;> simp <;> split <;> simp

/-- One `selStep` iteration moves the slave-candidate pair exactly as
`pickStep Role.slave` does. -/
theorem selStep_slave_proj (acc : SelAcc) (e : Handle × DbStatus) :
    ((selStep acc e).slave, (selStep acc e).slaveLatency) =
      pickStep Role.slave (acc.slave, acc.slaveLatency) e := by
  rcases e with ⟨h, r, lat⟩
  cases r <;> simp only [selStep, pickStep] <;> simp <;> split <;> simp

/-- The whole `makeSelection` loop moves the master-candidate pair exactly as
the `pickStep Role.master` fold does. -/
theorem foldl_selStep_master (l : List (Handle × DbStatus)) :
    ∀ acc : SelAcc,
      ((l.foldl selStep acc).master, (l.foldl selStep acc).masterLatency) =
        l.foldl (pickStep Role.master) (acc.master, acc.masterLatency) := by
  induction l with
  | nil => intro acc; rfl
  | cons e rest ih =>
      intro acc
      simp only [List.foldl_cons]
      rw [ih (selStep acc e), selStep_master_proj acc e]

/-- The whole `makeSelection` loop moves the slave-candidate pair exactly as
the `pickStep Role.slave` fold does. -/
theorem foldl_selStep_slave (l : List (Handle × DbStatus)) :
    ∀ acc : SelAcc,
      ((l.foldl selStep acc).slave, (l.foldl selStep acc).slaveLatency) =
        l.foldl (pickStep Role.slave) (acc.slave, acc.slaveLatency) := by
  induction l with
  | nil => intro acc; rfl
  | cons e rest ih =>
      intro acc
      simp only [List.foldl_cons]
      rw [ih (selStep acc e), selStep_slave_proj acc e]

/-- One `pickStep` preserves the picking invariant when the new entry has
positive latency. -/
theorem pickStep_inv (r : Role) (P : List (Handle × DbStatus))
    (p : Option Handle × Int) (e : Handle × DbStatus)
    (hlat : 0 < e.2.latency) (h : pickInv P r p) :
    pickInv (P ++ [e]) r (pickStep r p e) := by
  have hee : (e.1, (⟨e.2.role, e.2.latency⟩ : DbStatus)) = e := rfl
  rcases p with ⟨o, ml⟩
  by_cases hr : e.2.role = r
  · rcases o with - | h0
    · rcases h with ⟨hml, hnone⟩
      subst hml
      simp only [pickStep, if_pos hr, true_or, if_pos]
      refine ⟨hlat, ?_, ?_⟩
      · rw [← hr, hee]
        exact List.mem_append_right P (List.mem_singleton_self e)
      · intro e2 h2 hrole2
        rcases List.mem_append.1 h2 with h2 | h2
        · exact absurd hrole2 (hnone e2 h2)
        · rw [List.mem_singleton.1 h2]
    · rcases h with ⟨hpos, hmem, hmin⟩
      by_cases hc : ml = 0 ∨ e.2.latency < ml
      · have hlt : e.2.latency < ml := by
          rcases hc with hc | hc
          · omega
          · exact hc
        simp only [pickStep, if_pos hr, if_pos hc]
        refine ⟨hlat, ?_, ?_⟩
        · rw [← hr, hee]
          exact List.mem_append_right P (List.mem_singleton_self e)
        · intro e2 h2 hrole2
          rcases List.mem_append.1 h2 with h2 | h2
          · exact le_of_lt (lt_of_lt_of_le hlt (hmin e2 h2 hrole2))
          · rw [List.mem_singleton.1 h2]
      · simp only [pickStep, if_pos hr, if_neg hc]
        refine ⟨hpos, List.mem_append_left _ hmem, ?_⟩
        intro e2 h2 hrole2
        rcases List.mem_append.1 h2 with h2 | h2
        · exact hmin e2 h2 hrole2
        · rw [List.mem_singleton.1 h2]
          omega
  · simp only [pickStep, if_neg hr]
    rcases o with - | h0
    · rcases h with ⟨hml, hnone⟩
      refine ⟨hml, ?_⟩
      intro e2 h2
      rcases List.mem_append.1 h2 with h2 | h2
      · exact hnone e2 h2
      · rw [List.mem_singleton.1 h2]
        exact hr
    · rcases h with ⟨hpos, hmem, hmin⟩
      refine ⟨hpos, List.mem_append_left _ hmem, ?_⟩
      intro e2 h2 hrole2
      rcases List.mem_append.1 h2 with h2 | h2
      · exact hmin e2 h2 hrole2
      · exact absurd (List.mem_singleton.1 h2 ▸ hrole2) hr

/-- The `pickStep` fold keeps the picking invariant along any list of entries
with positive latencies. -/
theorem foldl_pickStep_inv (r : Role) (l : List (Handle × DbStatus)) :
    ∀ (P : List (Handle × DbStatus)) (p : Option Handle × Int),
      (∀ e ∈ l, 0 < e.2.latency) → pickInv P r p →
      pickInv (P ++ l) r (l.foldl (pickStep r) p) := by
  induction l with
  | nil => intro P p _ h; simpa using h
  | cons e rest ih =>
      intro P p hl h
      have h1 := pickStep_inv r P p e (hl e (List.mem_cons_self e rest)) h
      have h2 := ih (P ++ [e]) (pickStep r p e)
        (fun x hx => hl x (List.mem_cons_of_mem e hx)) h1
      simpa [List.append_assoc] using h2

/-- Starting from the empty accumulator, the `pickStep` fold satisfies the
picking invariant over the whole list. -/
theorem pick_spec (r : Role) (l : List (Handle × DbStatus))
    (hl : ∀ e ∈ l, 0 < e.2.latency) :
    pickInv l r (l.foldl (pickStep r) (none, 0)) := by
  have h := foldl_pickStep_inv r l [] (none, 0) hl ⟨rfl, by simp⟩
  simpa using h

/-- A list with no verdict-`r` entry leaves the picking fold unchanged. -/
theorem pick_const (r : Role) (l : List (Handle × DbStatus)) :
    ∀ p, (∀ e ∈ l, ¬ e.2.role = r) → l.foldl (pickStep r) p = p := by
  induction l with
  | nil => intro p _; rfl
  | cons e rest ih =>
      intro p h
      have he : ¬ e.2.role = r := h e (List.mem_cons_self e rest)
      simp only [List.foldl_cons, pickStep, if_neg he]
      exact ih p (fun x hx => h x (List.mem_cons_of_mem e hx))

/-- If a `pickStep` application leaves no chosen handle, it changed nothing. -/
theorem pickStep_none (r : Role) (p : Option Handle × Int) (e : Handle × DbStatus)
    (h : (pickStep r p e).1 = none) : pickStep r p e = p := by
  by_cases hr : e.2.role = r
  · by_cases hc : p.2 = 0 ∨ e.2.latency < p.2
    · simp [pickStep, hr, hc] at h
    · simp [pickStep, hr, hc]
  · simp [pickStep, hr]

/-- If the whole picking fold leaves no chosen handle (starting from a state
where an absent handle has the zero sentinel), then the start had none and the
list has no verdict-`r` entry. -/
theorem pick_none_of (r : Role) (l : List (Handle × DbStatus)) :
    ∀ p, (p.1 = none → p.2 = 0) → (l.foldl (pickStep r) p).1 = none →
      p.1 = none ∧ ∀ e ∈ l, ¬ e.2.role = r := by
  induction l with
  | nil => intro p _ h; exact ⟨h, by simp⟩
  | cons e rest ih =>
      intro p hz h
      simp only [List.foldl_cons] at h
      have hz2 : (pickStep r p e).1 = none → (pickStep r p e).2 = 0 := by
        intro hn
        have hs := pickStep_none r p e hn
        rw [hs]
        exact hz (hs ▸ hn)
      obtain ⟨h1, h2⟩ := ih (pickStep r p e) hz2 h
      have hstep := pickStep_none r p e h1
      rw [hstep] at h1
      have hr : ¬ e.2.role = r := by
        intro hr
        have hml := hz h1
        have hsome : (pickStep r p e).1 = some e.1 := by
          simp [pickStep, hr, hml]
        rw [hstep, h1] at hsome
        exact Option.noConfusion hsome
      refine ⟨h1, ?_⟩
      intro x hx
      rcases List.mem_cons.1 hx with hx | hx
      · rw [hx]; exact hr
      · exact h2 x hx

/-- Characterisation of the `multipleMasters` flag computed by the
`makeSelection` loop, for any starting accumulator whose absent master has the
zero latency sentinel. -/
theorem foldl_selStep_mm (l : List (Handle × DbStatus)) :
    ∀ acc : SelAcc, (acc.master = none → acc.masterLatency = 0) →
      ((l.foldl selStep acc).multipleMasters = true ↔
        (acc.multipleMasters = true
          ∨ (¬ acc.master = none ∧ 1 ≤ countRole l Role.master)
          ∨ 2 ≤ countRole l Role.master)) := by
  induction l with
  | nil =>
      intro acc _
      simp [countRole]
  | cons e rest ih =>
      intro acc hz
      rcases e with ⟨h, er, el⟩
      rw [List.foldl_cons]
      cases er with
      | offline =>
          have hstep : selStep acc (h, ⟨Role.offline, el⟩) = acc := rfl
          rw [hstep, ih acc hz]
          simp [countRole, List.countP_cons]
      | slave =>
          have hm : (selStep acc (h, ⟨Role.slave, el⟩)).master = acc.master := by
            simp only [selStep]
            split <;> rfl
          have hml : (selStep acc (h, ⟨Role.slave, el⟩)).masterLatency = acc.masterLatency := by
            simp only [selStep]
            split <;> rfl
          have hmm : (selStep acc (h, ⟨Role.slave, el⟩)).multipleMasters = acc.multipleMasters := by
            simp only [selStep]
            split <;> rfl
          rw [ih (selStep acc (h, ⟨Role.slave, el⟩)) (by rw [hm, hml]; exact hz), hmm, hm]
          simp [countRole, List.countP_cons]
      | master =>
          have hm2 : ¬ (selStep acc (h, ⟨Role.master, el⟩)).master = none := by
            by_cases hc : acc.masterLatency = 0 ∨ el < acc.masterLatency
            · simp [selStep, hc]
            · have hmn : ¬ acc.master = none := by
                intro hn
                rw [hz hn] at hc
                exact hc (Or.inl rfl)
              simp only [selStep]
              rw [if_neg hc]
              exact hmn
          have hmm2 : (selStep acc (h, ⟨Role.master, el⟩)).multipleMasters
              = (acc.multipleMasters || acc.master.isSome) := by
            simp only [selStep]
            split <;> rfl
          have hz2 : (selStep acc (h, ⟨Role.master, el⟩)).master = none →
              (selStep acc (h, ⟨Role.master, el⟩)).masterLatency = 0 :=
            fun hn => absurd hn hm2
          rw [ih (selStep acc (h, ⟨Role.master, el⟩)) hz2, hmm2]
          have hcount : countRole ((h, ⟨Role.master, el⟩) :: rest) Role.master
              = countRole rest Role.master + 1 := by
            simp [countRole, List.countP_cons]
          rw [hcount]
          cases hb : acc.multipleMasters <;> rcases hmo : acc.master with - | a <;>
            simp [hm2, hmo, Option.isSome] <;> omega

/-- The master slot of `makeSelection` is the result of the master-picking
fold from the empty start. -/
theorem makeSelection_master (statuses : List (Handle × DbStatus)) (lm : Option Handle) :
    (makeSelection statuses lm).master = (statuses.foldl (pickStep Role.master) (none, 0)).1 := by
  have h := congrArg Prod.fst (foldl_selStep_master statuses ⟨none, 0, none, 0, false⟩)
  simpa [makeSelection] using h

/-- The slave slot of `makeSelection` is the result of the slave-picking fold,
falling back to the master slot when that fold chose nothing. -/
theorem makeSelection_slave (statuses : List (Handle × DbStatus)) (lm : Option Handle) :
    (makeSelection statuses lm).slave =
      (if (statuses.foldl (pickStep Role.slave) (none, 0)).1 = none
       then (statuses.foldl (pickStep Role.master) (none, 0)).1
       else (statuses.foldl (pickStep Role.slave) (none, 0)).1) := by
  have hs := congrArg Prod.fst (foldl_selStep_slave statuses ⟨none, 0, none, 0, false⟩)
  have hm := congrArg Prod.fst (foldl_selStep_master statuses ⟨none, 0, none, 0, false⟩)
  simp only at hs hm
  simp [makeSelection, hs, hm]

/-- The published `lastMaster` is the master slot when one exists and the
incoming `lastMaster` otherwise. -/
theorem makeSelection_lastMaster (statuses : List (Handle × DbStatus)) (lm : Option Handle) :
    (makeSelection statuses lm).lastMaster =
      (if (makeSelection statuses lm).master = none then lm
       else (makeSelection statuses lm).master) := by
  simp [makeSelection]

/-- Feeding a present `lastMaster` into the aggregator always yields a present
`lastMaster`. -/
theorem makeSelection_lastMaster_isSome (statuses : List (Handle × DbStatus))
    (lm : Option Handle) (h : lm.isSome = true) :
    ((makeSelection statuses lm).lastMaster).isSome = true := by
  rw [makeSelection_lastMaster]
  split
  · exact h
  · rename_i hne
    rcases hm : (makeSelection statuses lm).master with - | a
    · exact absurd hm hne
    · simp [hm]

/-- Inversion of a successful construction: the published selection is the one
computed from the initial round with `lastMaster = dbs[0]`, and it did not
flag multiple masters. -/
theorem newWithConfig_ok (d : Handle) (ds : List Handle)
    (state : List (Handle × DbStatus)) (cfg : Config) (s : DBsState)
    (h : newWithConfig (d :: ds) state cfg = Except.ok s) :
    s.active = makeSelection state (some d) ∧ s.active.multipleMasters = false := by
  by_cases hmm : (makeSelection state (some d)).multipleMasters = true
  · simp [newWithConfig, hmm] at h
  · simp [newWithConfig, hmm] at h
    rw [← h]
    exact ⟨rfl, by simpa using hmm⟩

/-- Every reachable run-loop state carries a present `lastMaster`, both in the
loop variable and in the published selection. -/
theorem reachable_lastMaster_isSome (r : RunState) (hr : Reachable r) :
    r.lastMaster.isSome = true ∧ (r.active.lastMaster).isSome = true := by
  induction hr with
  | init d ds state cfg s h =>
      obtain ⟨hact, -⟩ := newWithConfig_ok d ds state cfg s h
      refine ⟨rfl, ?_⟩
      show (s.active.lastMaster).isSome = true
      rw [hact]
      exact makeSelection_lastMaster_isSome state (some d) rfl
  | update r db st hr ih =>
      obtain ⟨h1, -⟩ := ih
      exact ⟨makeSelection_lastMaster_isSome _ _ h1, makeSelection_lastMaster_isSome _ _ h1⟩

/-- The picking invariant implies the spec's notion of a correct pick. -/
theorem minimalFor_of_pickInv (statuses : List (Handle × DbStatus)) (r : Role)
    (p : Option Handle × Int) (h : pickInv statuses r p) :
    minimalFor statuses r p.1 := by
  rcases p with ⟨o, ml⟩
  rcases o with - | a
  · exact h.2
  · obtain ⟨hpos, hmem, hmin⟩ := h
    exact ⟨(a, ⟨r, ml⟩), hmem, rfl, rfl, fun e2 h2 hr2 => hmin e2 h2 hr2⟩

/-- C1: for every replication-role report and replication-health report, and
for every cluster report that does not trigger the (separately specified)
cluster override, the verdict of `mergeStatus` equals the first matching row
of the spec's 11-row decision table followed by the replication-lag
downgrade. -/
theorem classifier_matches_spec_table (ss : SlaveStatus) (rs : ReadOnlyStatus)
    (ws : WsrepStatus) (maxLag : Int)
    (hws : ¬ (ws.online = true ∧ ws.ready = false)) :
    (mergeStatus ss rs ws maxLag).role = specVerdict rs ss maxLag := by
  rcases rs with ⟨ro, rr, rl⟩
  rcases ss with ⟨so, sc, sio, ssq, sd, sl⟩
  cases ro <;> cases rr <;> cases so <;> cases sc <;> cases sio <;> cases ssq <;>
    simp_all [mergeStatus, specVerdict, specTableRole]

/-- Witness for C1 at the healthy read-only replica row. -/
theorem classifier_matches_spec_table_witness :
    (¬ ((zeroWsrepStatus).online = true ∧ (zeroWsrepStatus).ready = false))
    ∧ (mergeStatus ⟨true, true, true, true, 0, 2⟩ ⟨true, true, 1⟩ zeroWsrepStatus 300).role
        = specVerdict ⟨true, true, 1⟩ ⟨true, true, true, true, 0, 2⟩ 300 :=
  ⟨by decide,
   classifier_matches_spec_table ⟨true, true, true, true, 0, 2⟩ ⟨true, true, 1⟩
     zeroWsrepStatus 300 (by decide)⟩

/-- C5 counterexample: the latency of the merged status does not include the
cluster probe's latency — with role probe latency 1, health probe latency 2
and cluster probe latency 7 the result is 2, not the three-way maximum 7. -/
theorem latency_three_way_max_cex :
    ¬ ((mergeStatus ⟨true, false, false, false, 0, 2⟩ ⟨true, false, 1⟩ ⟨true, true, 7⟩ 300).latency
        = maxTime [(⟨true, false, 1⟩ : ReadOnlyStatus).latency,
            (⟨true, false, false, false, 0, 2⟩ : SlaveStatus).latency,
            (⟨true, true, 7⟩ : WsrepStatus).latency]) := by
  decide

/-- C5 amended: the latency of the merged status is the maximum of the
replication-role and replication-health probe latencies alone (clamped below
by the zero duration); the cluster probe's latency is not consulted. -/
theorem classifier_latency_max_of_two (ss : SlaveStatus) (rs : ReadOnlyStatus)
    (ws : WsrepStatus) (maxLag : Int) :
    (mergeStatus ss rs ws maxLag).latency = max 0 (max rs.latency ss.latency) := by
  simp only [mergeStatus, maxTime, List.foldl]
  split_ifs <;> omega

/-- C6 counterexample: with the health probe skipped, a reachable read-only
server is classified Slave, while the claim's "treated as reachable with no
replica configuration" report would classify it Offline. -/
theorem skip_health_check_cex :
    ¬ ((checkDBStatus ⟨true, true, 0, 0, 300⟩ ⟨true, true, 1⟩ ⟨true, true, true, true, 0, 1⟩ zeroWsrepStatus).role
        = (mergeStatus ⟨true, false, false, false, 0, 0⟩ ⟨true, true, 1⟩ zeroWsrepStatus
            (⟨true, true, 0, 0, 300⟩ : Config).maxReplicationDelay).role) := by
  decide

/-- C6 amended: a skipped health probe leaves the Go zero report
(`reachable=false`), so with `skipReplicationHealthCheck` set the verdict is
independent of the real health report: Offline when the role probe is
unreachable, Slave when it reports read-only, Master when it reports writable,
still subject to the cluster override when that probe is enabled (assuming a
non-negative configured lag bound). -/
theorem skip_health_check_verdict (cfg : Config) (rs : ReadOnlyStatus)
    (ss : SlaveStatus) (ws : WsrepStatus)
    (hskip : cfg.skipSlaveCheck = true) (hlag : 0 ≤ cfg.maxReplicationDelay) :
    (checkDBStatus cfg rs ss ws).role =
      (if cfg.skipGaleraCheck = false ∧ ws.online = true ∧ ws.ready = false then Role.offline
       else if rs.online = false then Role.offline
       else if rs.readOnly = true then Role.slave
       else Role.master) := by
  have hnl : ¬ (cfg.maxReplicationDelay < zeroSlaveStatus.delay) := by
    simp only [zeroSlaveStatus]
    omega
  rcases rs with ⟨ro, rr, rl⟩
  cases ro <;> cases rr <;> cases hsg : cfg.skipGaleraCheck <;>
    cases hwo : ws.online <;> cases hwr : ws.ready <;>
      simp_all [checkDBStatus, mergeStatus, zeroSlaveStatus, zeroWsrepStatus, hskip]

/-- Witness for C6 at a read-only server with the health probe skipped. -/
theorem skip_health_check_verdict_witness :
    ((⟨true, true, 0, 0, 300⟩ : Config).skipSlaveCheck = true)
    ∧ ((0 : Int) ≤ (⟨true, true, 0, 0, 300⟩ : Config).maxReplicationDelay)
    ∧ (checkDBStatus ⟨true, true, 0, 0, 300⟩ ⟨true, true, 1⟩ ⟨true, true, true, true, 0, 1⟩ zeroWsrepStatus).role
        = (if (⟨true, true, 0, 0, 300⟩ : Config).skipGaleraCheck = false
              ∧ (zeroWsrepStatus).online = true ∧ (zeroWsrepStatus).ready = false
           then Role.offline
           else if (⟨true, true, 1⟩ : ReadOnlyStatus).online = false then Role.offline
           else if (⟨true, true, 1⟩ : ReadOnlyStatus).readOnly = true then Role.slave
           else Role.master) :=
  ⟨by decide, by decide,
   skip_health_check_verdict ⟨true, true, 0, 0, 300⟩ ⟨true, true, 1⟩
     ⟨true, true, true, true, 0, 1⟩ zeroWsrepStatus (by decide) (by decide)⟩

/-- C8: whenever cluster probing is enabled and the node reports clustering
on but not ready, the verdict is Offline, whatever the other reports and the
lag bound say. -/
theorem cluster_not_ready_forces_offline (cfg : Config) (rs : ReadOnlyStatus)
    (ss : SlaveStatus) (ws : WsrepStatus) (hsg : cfg.skipGaleraCheck = false)
    (hon : ws.online = true) (hnr : ws.ready = false) :
    (checkDBStatus cfg rs ss ws).role = Role.offline := by
  simp [checkDBStatus, mergeStatus, hsg, hon, hnr]

/-- Witness for C8 at a locally writable but non-ready Galera node. -/
theorem cluster_not_ready_forces_offline_witness :
    (checkDBStatus cfgZero ⟨true, false, 1⟩ ⟨true, false, false, false, 0, 1⟩ ⟨true, false, 3⟩).role
      = Role.offline :=
  cluster_not_ready_forces_offline cfgZero ⟨true, false, 1⟩
    ⟨true, false, false, false, 0, 1⟩ ⟨true, false, 3⟩ (by decide) (by decide) (by decide)

/-- C4: the aggregator flags multiple masters exactly when more than one
server of the round has a Master verdict. -/
theorem multiple_masters_flag_iff (statuses : List (Handle × DbStatus)) (lm : Option Handle) :
    ((makeSelection statuses lm).multipleMasters = true
      ↔ 2 ≤ countRole statuses Role.master) := by
  have h := foldl_selStep_mm statuses ⟨none, 0, none, 0, false⟩ (fun _ => rfl)
  simpa [makeSelection] using h

/-- C7: construction fails with `ErrNoDatabases` on an empty server list and
with `ErrMultipleMasters` when the initial round has more than one
Master-verdict server; in both cases the result is an error, so the `go
p.run(...)` statement that starts the polling loops is never executed. -/
theorem construction_fails_fast :
    (∀ (state : List (Handle × DbStatus)) (cfg : Config),
        newWithConfig [] state cfg = Except.error ConstructionError.noDatabases)
    ∧ (∀ (d : Handle) (ds : List Handle) (state : List (Handle × DbStatus)) (cfg : Config),
        2 ≤ countRole state Role.master →
        newWithConfig (d :: ds) state cfg = Except.error ConstructionError.multipleMasters) := by
  constructor
  · intro state cfg
    rfl
  · intro d ds state cfg hcount
    have h := foldl_selStep_mm state ⟨none, 0, none, 0, false⟩ (fun _ => rfl)
    have hmm : (makeSelection state (some d)).multipleMasters = true := by
      have h2 : (state.foldl selStep ⟨none, 0, none, 0, false⟩).multipleMasters = true := by
        rw [h]
        exact Or.inr (Or.inr hcount)
      simpa [makeSelection] using h2
    simp [newWithConfig, hmm]

/-- Witness for C7 on a two-master initial round. -/
theorem construction_fails_fast_witness :
    newWithConfig [0, 1] [(0, ⟨Role.master, 1⟩), (1, ⟨Role.master, 2⟩)] cfgZero
      = Except.error ConstructionError.multipleMasters :=
  construction_fails_fast.2 0 [1] [(0, ⟨Role.master, 1⟩), (1, ⟨Role.master, 2⟩)] cfgZero
    (by decide)

/-- C3 counterexample: a Master-verdict server whose reported latency is the
zero sentinel is overridden by a later, slower candidate, so the chosen master
is not of minimal latency among the Master-verdict servers. -/
theorem aggregator_minimal_latency_cex :
    ¬ minimalFor [(1, ⟨Role.master, 0⟩), (2, ⟨Role.master, 5⟩)] Role.master
        ((makeSelection [(1, ⟨Role.master, 0⟩), (2, ⟨Role.master, 5⟩)] none).master) := by
  decide

/-- C3 amended: provided every reported latency of the round is positive (the
zero duration is the code's "unset" sentinel), the master slot is a
minimal-latency Master-verdict server (or empty exactly when there is none),
the slave slot is a minimal-latency Slave-verdict server whenever one exists
and otherwise falls back to the master slot; Offline-verdict servers are never
picked for either slot. -/
theorem aggregator_minimal_latency (statuses : List (Handle × DbStatus))
    (lm : Option Handle) (hpos : ∀ e ∈ statuses, 0 < e.2.latency) :
    minimalFor statuses Role.master (makeSelection statuses lm).master
    ∧ ((∃ e ∈ statuses, e.2.role = Role.slave) →
        minimalFor statuses Role.slave (makeSelection statuses lm).slave)
    ∧ ((∀ e ∈ statuses, ¬ e.2.role = Role.slave) →
        (makeSelection statuses lm).slave = (makeSelection statuses lm).master) := by
  refine ⟨?_, ?_, ?_⟩
  · rw [makeSelection_master]
    exact minimalFor_of_pickInv statuses Role.master _ (pick_spec Role.master statuses hpos)
  · intro hex
    rw [makeSelection_slave]
    rcases hsl : (statuses.foldl (pickStep Role.slave) (none, 0)).1 with - | a
    · obtain ⟨-, hall⟩ := pick_none_of Role.slave statuses (none, 0) (fun _ => rfl) hsl
      obtain ⟨e, he, hrr⟩ := hex
      exact absurd hrr (hall e he)
    · have hmin := minimalFor_of_pickInv statuses Role.slave _ (pick_spec Role.slave statuses hpos)
      rw [hsl] at hmin
      simpa [hsl] using hmin
  · intro hall
    rw [makeSelection_slave, makeSelection_master,
      pick_const Role.slave statuses (none, 0) hall]
    simp

/-- Witness for C3 on a one-master-one-slave round with positive latencies. -/
theorem aggregator_minimal_latency_witness :
    minimalFor stW Role.master (makeSelection stW none).master
    ∧ ((∃ e ∈ stW, e.2.role = Role.slave) →
        minimalFor stW Role.slave (makeSelection stW none).slave)
    ∧ ((∀ e ∈ stW, ¬ e.2.role = Role.slave) →
        (makeSelection stW none).slave = (makeSelection stW none).master) :=
  aggregator_minimal_latency stW none (by decide)

/-- C10: whenever the master slot is filled, the slave slot is filled too (a
lone master backs the slave slot) and the published `lastMaster` equals the
master slot; and whenever multiple masters are flagged, the master slot is
filled. -/
theorem selection_structural_invariants (statuses : List (Handle × DbStatus))
    (lm : Option Handle) :
    ((¬ (makeSelection statuses lm).master = none) →
        (¬ (makeSelection statuses lm).slave = none)
        ∧ (makeSelection statuses lm).lastMaster = (makeSelection statuses lm).master)
    ∧ ((makeSelection statuses lm).multipleMasters = true →
        ¬ (makeSelection statuses lm).master = none) := by
  constructor
  · intro hm
    refine ⟨?_, ?_⟩
    · rw [makeSelection_slave]
      rw [makeSelection_master] at hm
      split
      · exact hm
      · rename_i hne
        exact hne
    · rw [makeSelection_lastMaster, if_neg hm]
  · intro hmm hm
    have h := foldl_selStep_mm statuses ⟨none, 0, none, 0, false⟩ (fun _ => rfl)
    have hcount : 2 ≤ countRole statuses Role.master := by
      have h2 : (statuses.foldl selStep ⟨none, 0, none, 0, false⟩).multipleMasters = true := by
        simpa [makeSelection] using hmm
      simpa using h.mp h2
    rw [makeSelection_master] at hm
    obtain ⟨-, hall⟩ := pick_none_of Role.master statuses (none, 0) (fun _ => rfl) hm
    have hzero : countRole statuses Role.master = 0 := by
      simp only [countRole, List.countP_eq_zero]
      intro e he
      simpa using hall e he
    omega

/-- Witness for C10 on a one-master-one-slave round. -/
theorem selection_structural_invariants_witness :
    (¬ (makeSelection stW none).slave = none)
    ∧ (makeSelection stW none).lastMaster = (makeSelection stW none).master :=
  (selection_structural_invariants stW none).1 (by decide)

/-- C2: in every reachable published selection, `Master()` returns the
poisoned error-driver handle when multiple masters are flagged (and every
query-shaped call through it fails with `ErrMultipleMasters`), otherwise the
master candidate when one exists, otherwise the last known master; in no
reachable state does it return the nil pointer. -/
theorem master_accessor_total (r : RunState) (hr : Reachable r) :
    (r.active.multipleMasters = true →
        masterAccessor r.active = newMultipleMasterErrConn
        ∧ ∀ q, execQuery (masterAccessor r.active) q = Except.error SQLError.multipleMasters)
    ∧ (r.active.multipleMasters = false → ∀ a, r.active.master = some a →
        masterAccessor r.active = DBPtr.real a)
    ∧ (r.active.multipleMasters = false → r.active.master = none →
        masterAccessor r.active = optPtr r.active.lastMaster)
    ∧ ¬ masterAccessor r.active = DBPtr.null := by
  obtain ⟨-, h2⟩ := reachable_lastMaster_isSome r hr
  refine ⟨?_, ?_, ?_, ?_⟩
  · intro hmm
    have hacc : masterAccessor r.active = newMultipleMasterErrConn := by
      simp [masterAccessor, hmm]
    refine ⟨hacc, ?_⟩
    intro q
    rw [hacc]
    rfl
  · intro hmm a ha
    simp [masterAccessor, hmm, ha, optPtr]
  · intro hmm hm
    simp [masterAccessor, hmm, hm]
  · by_cases hmm : r.active.multipleMasters = true
    · simp [masterAccessor, hmm, newMultipleMasterErrConn]
    · simp only [Bool.not_eq_true] at hmm
      rcases hm : r.active.master with - | a
      · obtain ⟨b, hb⟩ := Option.isSome_iff_exists.mp h2
        simp [masterAccessor, hmm, hm, hb, optPtr]
      · simp [masterAccessor, hmm, hm, optPtr]

/-- Witness for C2 at the state published right after constructing on a
single healthy master. -/
theorem master_accessor_total_witness :
    ¬ masterAccessor runW.active = DBPtr.null :=
  (master_accessor_total runW (Reachable.init 0 [] stateW cfgZero dbsW rfl)).2.2.2

/-- C9: `lastKnownMaster` is seeded at construction from the initial probe
round (with `dbs[0]` as the fallback), and every later aggregation step sets
it to the round's master candidate when one exists and carries it over
unchanged otherwise. -/
theorem last_master_seed_and_frame (d : Handle) (ds : List Handle)
    (state : List (Handle × DbStatus)) (cfg : Config) (s : DBsState)
    (h : newWithConfig (d :: ds) state cfg = Except.ok s) :
    (s.active.lastMaster =
        (if (makeSelection state (some d)).master = none then some d
         else (makeSelection state (some d)).master))
    ∧ (∀ (r : RunState) (db : Handle) (st : DbStatus),
        (stepRun r db st).lastMaster =
          (if (makeSelection (setStatus r.state db st) r.lastMaster).master = none
           then r.lastMaster
           else (makeSelection (setStatus r.state db st) r.lastMaster).master)) := by
  constructor
  · obtain ⟨hact, -⟩ := newWithConfig_ok d ds state cfg s h
    rw [hact]
    exact makeSelection_lastMaster state (some d)
  · intro r db st
    exact makeSelection_lastMaster (setStatus r.state db st) r.lastMaster

/-- Witness for C9 at the construction on a single healthy master. -/
theorem last_master_seed_and_frame_witness :
    dbsW.active.lastMaster =
      (if (makeSelection stateW (some 0)).master = none then some 0
       else (makeSelection stateW (some 0)).master) :=
  (last_master_seed_and_frame 0 [] stateW cfgZero dbsW rfl).1

end Dbfailover
